import Mathlib

/-!
Shallow embedding of the core of the paper modal terminal editor.

The embedding follows src/src/lib.rs (coordinate model, document view, mark
and adjustment engine, line and pattern filters) and src/src/mode.rs (the
mode state machine).  Machine integers are modelled as Nat and Int; the
release-mode wrapping of integer casts is made explicit through usizeOfInt
and isizeOfNat where a cast could wrap.  Calls that can panic in Rust
(unwrap on a missing value, out-of-bounds string mutation) are modelled
with Option results, none standing for a panic.

The ui module of the repository is not present under src/; the handful of
items from it that the core uses (the key-code constants, the Change and
Length types and the Color tags) are modelled from the spec and are marked
as such in their doc comments.  Terminal output (the Edit values sent to
the renderer) is a pure side effect and is not part of the modelled state.
-/

/-- Modelled from the spec: the ui module (absent from src/) names the
Backspace key code used to classify edits; it is the ASCII backspace
character. -/
def BACKSPACE : Char := Char.ofNat 8

/-- Modelled from the spec: the ui module names the Enter key code, a line
break character. -/
def ENTER : Char := '\n'

/-- Modelled from the spec: the ui module names the Escape key code, the
ASCII escape character. -/
def ESC : Char := Char.ofNat 27

/-- Modelled from the spec: color tags used by render edits. -/
inductive Color where
  | Default
  | Blue
  | Red
deriving DecidableEq

/-- Modelled from the spec: the change part of a render edit; Insert and
Backspace are incremental redraws, Clear forces a full redraw, Row and
Format replace or recolor a row region. -/
inductive Change where
  | Backspace
  | Clear
  | Insert (c : Char)
  | Row (text : List Char)
  | Format (color : Color)
deriving DecidableEq

/-- Modelled from the spec: the Default value of Change.  Step 7 of the
per-keystroke algorithm requires the accumulated class to reflect the edits
of the marks themselves (full redraw exactly when some mark produced a
line-restructuring edit), and the accumulation in update_view overwrites
the running class only while it is not Clear; the default is therefore a
value other than Clear (an empty Row change). -/
def Change.default : Change := Change.Row []

/-- Modelled from the spec: a Length is a finite character count or the
sentinel meaning through the end of the containing line (the END value of
the ui module). -/
inductive Length where
  | finite (n : Nat)
  | toEnd
deriving DecidableEq

/-- A 1-based line number, a positive integer (NonZeroUsize in the
source). -/
abbrev LineNumber : Type := { n : Nat // 0 < n }

/-- The underlying positive value of a line number. -/
def LineNumber.get (n : LineNumber) : Nat := n.val

/-- LineNumber::index: the 0-based index of the line. -/
def LineNumber.index (n : LineNumber) : Nat := n.val - 1

/-- Default for LineNumber: line 1. -/
def LineNumber.default : LineNumber := ⟨1, Nat.one_pos⟩

/-- LineNumber::new: succeeds exactly on positive values. -/
def LineNumber.new (v : Nat) : Option LineNumber :=
  if h : 0 < v then some ⟨v, h⟩ else none

/-- Add of a usize to a LineNumber. -/
def LineNumber.add (n : LineNumber) (k : Nat) : LineNumber :=
  ⟨n.val + k, Nat.add_pos_left n.2 k⟩

/-- Sub of a usize from a LineNumber: saturates at the default line 1 when
the subtrahend is at least the value. -/
def LineNumber.sub (n : LineNumber) (k : Nat) : LineNumber :=
  if h : k < n.val then ⟨n.val - k, by omega⟩ else LineNumber.default

/-- Add of an isize to a LineNumber, dispatching on the sign as the source
does. -/
def LineNumber.addInt (n : LineNumber) (i : Int) : LineNumber :=
  if i < 0 then n.sub (-i).toNat else n.add i.toNat

/-- cmp::min on LineNumber values (order of the underlying numbers). -/
def LineNumber.min (a b : LineNumber) : LineNumber :=
  if a.val ≤ b.val then a else b

/-- Convenience constructor: the line with 0-based index n (so lineNo 0 is
line 1). -/
def lineNo (n : Nat) : LineNumber := ⟨n + 1, Nat.succ_pos n⟩

/-- The release-mode cast of an isize result back to usize: reduce modulo
2 to the 64 and read off the nonnegative representative. -/
def usizeOfInt (i : Int) : Nat := (i % (2 ^ 64)).toNat

/-- The release-mode cast of a usize to isize: two-complement wrap at
2 to the 63. -/
def isizeOfNat (x : Nat) : Int := (((x : Int) + 2 ^ 63) % (2 ^ 64)) - 2 ^ 63

/-- A pointer into the view data: an absolute offset or Invalid (None). -/
structure Pointer where
  val : Option Nat
deriving DecidableEq

/-- Pointer::to_isize unwraps and casts; none models the panic on
Invalid. -/
def Pointer.to_isize (p : Pointer) : Option Int := p.val.map isizeOfNat

/-- Add of a Pointer to a usize (the impl Add of Pointer for usize). -/
def usizeAddPointer (n : Nat) (p : Pointer) : Pointer :=
  ⟨p.val.map (fun x => (x + n) % 2 ^ 64)⟩

/-- Add of a usize to a Pointer. -/
def Pointer.addUsize (p : Pointer) (n : Nat) : Pointer :=
  ⟨p.val.map (fun x => (x + n) % 2 ^ 64)⟩

/-- SubAssign of a usize from a Pointer. -/
def Pointer.subUsize (p : Pointer) (n : Nat) : Pointer :=
  ⟨p.val.map (fun x => usizeOfInt ((x : Int) - (n : Int)))⟩

/-- AddAssign of an isize to a Pointer: cast to isize, add, cast back. -/
def Pointer.addIsize (p : Pointer) (i : Int) : Pointer :=
  ⟨p.val.map (fun x => usizeOfInt (isizeOfNat x + i))⟩

/-- The location of a character in a view: 1-based line, 0-based column
(called index in the source). -/
structure Place where
  line : LineNumber
  index : Nat
deriving DecidableEq

/-- One cursor: a place and the pointer that must denote the same
location. -/
structure Mark where
  pointer : Pointer
  place : Place
deriving DecidableEq

/-- A range of adjacent places: a start and a length. -/
structure Section where
  start : Place
  length : Length
deriving DecidableEq

/-- Section::line: the section that covers a whole line. -/
def Section.line (l : LineNumber) : Section :=
  { start := { line := l, index := 0 }, length := Length.toEnd }

/-- Split a character sequence at every line break, keeping empty parts. -/
def splitNl : List Char → List (List Char)
  | [] => [[]]
  | c :: t =>
    if c = '\n' then [] :: splitNl t
    else
      match splitNl t with
      | [] => [[c]]
      | h :: r => (c :: h) :: r

/-- The lines iterator of str: no line for the empty text and no trailing
empty line after a final line break. -/
def rustLines (s : List Char) : List (List Char) :=
  if s = [] then []
  else
    let ps := splitNl s
    if ps.getLastD [] = [] then ps.dropLast else ps

/-- Insert a character before the given 0-based position of a character
sequence (String::insert on the character level). -/
def insertAtL : Nat → Char → List Char → List Char
  | 0, c, l => c :: l
  | _ + 1, c, [] => [c]
  | n + 1, c, x :: t => x :: insertAtL n c t

/-- Remove the character at the given 0-based position (String::remove on
the character level). -/
def eraseAtL : Nat → List Char → List Char
  | _, [] => []
  | 0, _ :: t => t
  | n + 1, x :: t => x :: eraseAtL n t

/-- The document view: the text, the scroll origin line and the cached
line count.  The scroll-origin column width of the source (a render-only
quantity computed from the line count with float log10) is not part of the
modelled state. -/
structure View where
  data : List Char
  originLine : LineNumber
  line_count : Nat
deriving DecidableEq

/-- View::line: the text of the given line, if it exists. -/
def View.line (v : View) (n : LineNumber) : Option (List Char) :=
  (rustLines v.data).get? n.index

/-- View::line_length: the length of the line containing the place; none
models the unwrap panic when the line does not exist. -/
def View.line_length (v : View) (place : Place) : Option Nat :=
  (v.line place.line).map List.length

/-- View::clean: recompute the cached line count from the data. -/
def View.clean (v : View) : View :=
  { v with line_count := (rustLines v.data).length }

/-- View::scroll: move the origin line, clamped above by the line count
(or line 1 when the view is empty). -/
def View.scroll (v : View) (movement : Int) : View :=
  { v with
    originLine :=
      LineNumber.min (v.originLine.addInt movement)
        ((LineNumber.new v.line_count).getD LineNumber.default) }

/-- View::add: apply one edit character at the pointer of the (already
adjusted) mark.  Backspace removes the character at the pointer; any other
character is inserted one position before the pointer.  none models the
panics: an Invalid pointer, an out-of-bounds removal, or an insertion
whose index underflows or exceeds the text length. -/
def View.add (v : View) (m : Mark) (c : Char) : Option View :=
  match m.pointer.val with
  | none => none
  | some index =>
    if c = BACKSPACE then
      if index < v.data.length then
        some { v with data := eraseAtL index v.data }
      else none
    else
      if 1 ≤ index ∧ index - 1 ≤ v.data.length then
        some { v with data := insertAtL (index - 1) c v.data }
      else none

/-- The net effect of one character-level edit.  The per-line column
deltas are modelled as a partial map from line numbers to deltas (the
HashMap of the source). -/
structure Adjustment where
  shift : Int
  line_change : Int
  indexes_changed : LineNumber → Option Int
  change : Change

/-- Default for Adjustment: all deltas zero, no per-line entries, default
change class. -/
def Adjustment.default : Adjustment :=
  { shift := 0, line_change := 0, indexes_changed := fun _ => none,
    change := Change.default }

/-- Adjustment::new: the line delta equals the shift exactly for a Clear
(full redraw) change, and the single per-line entry is registered for the
line moved by that delta. -/
def Adjustment.new (line : LineNumber) (shift : Int) (index_change : Int)
    (change : Change) : Adjustment :=
  let line_change : Int := if change = Change.Clear then shift else 0
  { shift := shift, line_change := line_change,
    indexes_changed := fun l =>
      if l = line.addInt line_change then some index_change else none,
    change := change }

/-- Adjustment::create: classify one keystroke at a place.  Backspace at
column 0 merges lines (full redraw) and registers the length of the line
containing the place as the column delta; Backspace elsewhere and an
ordinary insert are incremental; Enter breaks the line (full redraw).
none models the unwrap panic of line_length when the line of the place
does not exist. -/
def Adjustment.create (c : Char) (place : Place) (view : View) :
    Option Adjustment :=
  if c = BACKSPACE then
    if place.index = 0 then
      (view.line_length place).map (fun len =>
        Adjustment.new place.line (-1) (len : Int) Change.Clear)
    else some (Adjustment.new place.line (-1) (-1) Change.Backspace)
  else if c = ENTER then
    some (Adjustment.new place.line 1 (-(place.index : Int)) Change.Clear)
  else some (Adjustment.new place.line 1 1 (Change.Insert c))

/-- AddAssign for Adjustment: deltas add, per-line entries merge
additively, and the change class keeps Clear once it has become Clear. -/
def Adjustment.add (s o : Adjustment) : Adjustment :=
  { shift := s.shift + o.shift,
    line_change := s.line_change + o.line_change,
    indexes_changed := fun l =>
      match s.indexes_changed l, o.indexes_changed l with
      | none, none => none
      | some a, none => some a
      | none, some b => some b
      | some a, some b => some (a + b),
    change := if s.change ≠ Change.Clear then o.change else s.change }

/-- Mark::adjust: when the accumulated shift would keep the pointer
strictly positive, apply the shift to the pointer, the line delta to the
line, and the per-line entry registered for the resulting line to the
column; otherwise leave the mark unmodified.  none models the unwrap panic
of to_isize on an Invalid pointer. -/
def Mark.adjust (m : Mark) (a : Adjustment) : Option Mark :=
  match m.pointer.to_isize with
  | none => none
  | some pi =>
    if -a.shift < pi then
      let newLine := m.place.line.addInt a.line_change
      let newIndex :=
        match a.indexes_changed newLine with
        | some change => usizeOfInt ((m.place.index : Int) + change)
        | none => m.place.index
      some { pointer := m.pointer.addIsize a.shift,
             place := { line := newLine, index := newIndex } }
    else some m

/-- The application state touched by the mark and adjustment engine. -/
structure Paper where
  view : View
  marks : List Mark
deriving DecidableEq

/-- The per-mark loop of Paper::update_view: accumulate each mark's own
adjustment into the running total, adjust the mark by the accumulated
total, and apply the edit to the view at the adjusted pointer.  The render
edits emitted for incremental changes are terminal output and are not
modelled. -/
def updateViewGo (c : Char) :
    List Mark → Adjustment → View → Option (List Mark × View × Adjustment)
  | [], adj, v => some ([], v, adj)
  | m :: rest, adj, v =>
    match Adjustment.create c m.place v with
    | none => none
    | some own =>
      let adj2 := adj.add own
      match m.adjust adj2 with
      | none => none
      | some m2 =>
        match v.add m2 c with
        | none => none
        | some v2 =>
          match updateViewGo c rest adj2 v2 with
          | none => none
          | some (ms, v3, a3) => some (m2 :: ms, v3, a3)

/-- Paper::update_view: run the per-mark loop from the default adjustment
and, when the accumulated class is Clear, recompute the derived view
layout (the full redraw itself is terminal output).  The accumulated
adjustment is returned so that the classification of the edit can be
observed. -/
def Paper.update_view (p : Paper) (c : Char) : Option (Paper × Adjustment) :=
  match updateViewGo c p.marks Adjustment.default p.view with
  | none => none
  | some (ms, v, adj) =>
    if adj.change = Change.Clear then
      some ({ view := v.clean, marks := ms }, adj)
    else some ({ view := v, marks := ms }, adj)

/-- The numeric value of a digit string (most significant digit first). -/
def digitsVal (ds : List Char) : Nat :=
  ds.foldl (fun a c => a * 10 + (c.toNat - 48)) 0

/-- Parsing a captured digit string as usize: the capture is a nonempty
run of digits, and parsing fails exactly on overflow of the 64-bit
range. -/
def parseUsize (ds : List Char) : Option Nat :=
  if ds ≠ [] ∧ ds.all Char.isDigit = true ∧ digitsVal ds < 2 ^ 64 then
    some (digitsVal ds)
  else none

/-- Parsing a captured movement (sign followed by digits) as isize,
failing on overflow of the 63-bit magnitude range. -/
def parseIsize (neg : Bool) (ds : List Char) : Option Int :=
  if ds ≠ [] ∧ ds.all Char.isDigit = true then
    if neg then
      if digitsVal ds ≤ 2 ^ 63 then some (-(digitsVal ds : Int)) else none
    else
      if digitsVal ds < 2 ^ 63 then some (digitsVal ds : Int) else none
  else none

/-- The capture groups of the line filter pattern: an exact line (the
end-anchored first alternative), an inclusive range, or an origin with a
signed movement. -/
inductive LineTok where
  | line (ds : List Char)
  | range (a b : List Char)
  | rel (origin : List Char) (neg : Bool) (delta : List Char)
deriving DecidableEq

/-- One attempt of the line filter pattern at the start of a suffix of
the feature, with the alternatives tried in the order they are joined in
the source pattern: a hash, then digits to the end of the text, or digits
dot digits, or digits sign digits. -/
def lineTokAt (s : List Char) : Option LineTok :=
  match s with
  | '#' :: rest =>
    let ds := rest.takeWhile Char.isDigit
    if ds = [] then none
    else
      match rest.dropWhile Char.isDigit with
      | [] => some (LineTok.line ds)
      | '.' :: r3 =>
        let es := r3.takeWhile Char.isDigit
        if es = [] then none else some (LineTok.range ds es)
      | '+' :: r3 =>
        let ms := r3.takeWhile Char.isDigit
        if ms = [] then none else some (LineTok.rel ds false ms)
      | '-' :: r3 =>
        let ms := r3.takeWhile Char.isDigit
        if ms = [] then none else some (LineTok.rel ds true ms)
      | _ => none
  | _ => none

/-- The leftmost match of the line filter pattern over the feature (the
tokenize of the rec pattern). -/
def findTok : List Char → Option LineTok
  | [] => none
  | c :: t =>
    match lineTokAt (c :: t) with
    | some tok => some tok
    | none => findTok t

/-- LineFilter::extract: narrow the working set according to the captured
token; an exact line keeps the sections starting on that line, a range
keeps the sections whose start line lies between the normalized endpoints,
and a relative spec builds the second endpoint by signed offset (with the
release-mode usize cast) before normalizing.  A feature without a match,
or one whose numbers fail to parse, leaves the working set unchanged. -/
def LineFilter.extract (feature : List Char) (sections : List Section) :
    List Section :=
  match findTok feature with
  | some (LineTok.line ds) =>
    match parseUsize ds with
    | some n => sections.filter (fun x => decide (x.start.line.val = n))
    | none => sections
  | some (LineTok.range a b) =>
    match parseUsize a, parseUsize b with
    | some s, some e =>
      sections.filter (fun x =>
        decide (Nat.min s e ≤ x.start.line.val) &&
          decide (x.start.line.val ≤ Nat.max s e))
    | _, _ => sections
  | some (LineTok.rel o neg d) =>
    match parseUsize o, parseIsize neg d with
    | some origin, some movement =>
      let e := usizeOfInt (isizeOfNat origin + movement)
      sections.filter (fun x =>
        decide (Nat.min origin e ≤ x.start.line.val) &&
          decide (x.start.line.val ≤ Nat.max origin e))
    | _, _ => sections
  | none => sections

/-- The leftmost capture of the pattern filter feature: the text after the
first slash that is followed by at least one character of the same line
(the one-or-more-of-any capture of the rec pattern). -/
def findPat : List Char → Option (List Char)
  | [] => none
  | c :: t =>
    if c = '/' then
      let cap := t.takeWhile (fun ch => decide (ch ≠ '\n'))
      if cap = [] then findPat t else some cap
    else findPat t

/-- Boolean prefix test on character lists. -/
def isPrefixL : List Char → List Char → Bool
  | [], _ => true
  | _ :: _, [] => false
  | a :: t1, b :: t2 => a = b && isPrefixL t1 t2

/-- One pass of literal substring search, structurally recursive on an
iteration bound: at a match the search continues past the matched text
(non-overlapping occurrences), otherwise it advances one character.  Every
step consumes at least one character of the target, so a bound equal to
the target length never runs out before the target is exhausted, and an
exhausted target yields no further occurrence in either formulation. -/
def locateIter (pat : List Char) : Nat → List Char → Nat → List (Nat × Nat)
  | 0, _, _ => []
  | fuel + 1, tgt, pos =>
    if pat ≠ [] ∧ isPrefixL pat tgt = true then
      (pos, pat.length) :: locateIter pat fuel (tgt.drop pat.length) (pos + pat.length)
    else
      match tgt with
      | [] => []
      | _ :: t => locateIter pat fuel t (pos + 1)

/-- The locate_iter of a compiled literal pattern: the non-overlapping
leftmost occurrences of the pattern in the target, each reported as its
start position and length.  The user pattern is compiled through the
escaping literal conversion of the rec crate, so matching is literal
substring search. -/
def locateAux (pat : List Char) (tgt : List Char) (pos : Nat) :
    List (Nat × Nat) :=
  locateIter pat tgt.length tgt pos

/-- The per-candidate loop of PatternFilter::extract: each candidate is
replaced by one narrower section per occurrence of the pattern in the
candidate text (the line text from the candidate column on), the start
advanced by the occurrence position and the length set to the occurrence
length.  none models the unwrap panic when the line of a candidate does
not exist in the view. -/
def patternGo (pat : List Char) (v : View) : List Section → Option (List Section)
  | [] => some []
  | s :: rest =>
    match v.line s.start.line with
    | none => none
    | some ln =>
      let target := ln.drop s.start.index
      let found := locateAux pat target 0
      match patternGo pat v rest with
      | none => none
      | some tail =>
        some ((found.map (fun loc =>
          ({ start := { line := s.start.line, index := s.start.index + loc.1 },
             length := Length.finite loc.2 } : Section))) ++ tail)

/-- PatternFilter::extract: when a pattern is captured from the feature it
is compiled as an escaped literal (which always succeeds) and every
candidate is replaced by its matches; when no pattern is captured the
working set is untouched. -/
def PatternFilter.extract (feature : List Char) (sections : List Section)
    (view : View) : Option (List Section) :=
  match findPat feature with
  | none => some sections
  | some pat => patternGo pat view sections

/-- The five modes of the controller. -/
inductive Mode where
  | Display
  | Command
  | Filter
  | Action
  | Edit
deriving DecidableEq

/-- The edge of a section used when seeding marks. -/
inductive Edge where
  | Start
  | End
deriving DecidableEq

/-- The operations a mode handler can emit for one input character. -/
inductive Operation where
  | ChangeMode (m : Mode)
  | AddToSketch (s : List Char)
  | DrawSketch
  | UpdateView (c : Char)
  | SetMarks (edge : Edge)
  | ExecuteCommand
  | IdentifyNoise
  | ScrollDown
  | ScrollUp
deriving DecidableEq

/-- The process_input of each mode handler of src/src/mode.rs, dispatched
on the current mode as Controller::process_input does. -/
def Mode.process_input : Mode → Char → List Operation
  | Mode.Display, c =>
    if c = '.' then [Operation.ChangeMode Mode.Command]
    else if c = '#' ∨ c = '/' then
      [Operation.ChangeMode Mode.Filter, Operation.AddToSketch [c],
       Operation.DrawSketch]
    else if c = 'j' then [Operation.ScrollDown]
    else if c = 'k' then [Operation.ScrollUp]
    else []
  | Mode.Command, c =>
    if c = ENTER then [Operation.ExecuteCommand, Operation.ChangeMode Mode.Display]
    else if c = ESC then [Operation.ChangeMode Mode.Display]
    else [Operation.AddToSketch [c], Operation.DrawSketch]
  | Mode.Filter, c =>
    if c = ENTER then [Operation.ChangeMode Mode.Action]
    else if c = '\t' then
      [Operation.IdentifyNoise, Operation.AddToSketch ['&', '&'],
       Operation.DrawSketch]
    else if c = ESC then [Operation.ChangeMode Mode.Display]
    else [Operation.AddToSketch [c], Operation.DrawSketch]
  | Mode.Action, c =>
    if c = ESC then [Operation.ChangeMode Mode.Display]
    else if c = 'i' then
      [Operation.SetMarks Edge.Start, Operation.ChangeMode Mode.Edit]
    else if c = 'I' then
      [Operation.SetMarks Edge.End, Operation.ChangeMode Mode.Edit]
    else []
  | Mode.Edit, c =>
    if c = ESC then [Operation.ChangeMode Mode.Display]
    else [Operation.AddToSketch [c], Operation.UpdateView c]

/-- The mode reached after the run loop applies a sequence of operations:
each ChangeMode operation replaces the current mode. -/
def applyOps (m : Mode) (ops : List Operation) : Mode :=
  ops.foldl (fun cur op =>
    match op with
    | Operation.ChangeMode m2 => m2
    | _ => cur) m

/-- Whether an operation mutates the document buffer: UpdateView applies
an edit through the mark and adjustment engine, and ExecuteCommand may
replace the buffer. -/
def Operation.editsBuffer : Operation → Bool
  | Operation.UpdateView _ => true
  | Operation.ExecuteCommand => true
  | _ => false

/-- Sample view: the two-line document with first line a and second line
bc. -/
def viewC2 : View :=
  { data := ['a', '\n', 'b', 'c'], originLine := lineNo 0, line_count := 2 }

/-- Sample view: the one-line document xxfooyy. -/
def viewC7 : View :=
  { data := ['x', 'x', 'f', 'o', 'o', 'y', 'y'], originLine := lineNo 0,
    line_count := 1 }

/-- Sample view: the one-line document ab. -/
def viewAB : View :=
  { data := ['a', 'b'], originLine := lineNo 0, line_count := 1 }

/-- The wrapping cast is the identity on small natural numbers. -/
theorem usizeOfInt_natCast (n : Nat) (h : n < 2 ^ 64) :
    usizeOfInt (n : Int) = n := by
  unfold usizeOfInt
  rw [Int.emod_eq_of_lt (by positivity) (by exact_mod_cast h)]
  simp

/-- The wrapping cast is toNat on nonnegative integers below the range. -/
theorem usizeOfInt_eq_toNat (i : Int) (h0 : 0 ≤ i) (h : i < 2 ^ 64) :
    usizeOfInt i = i.toNat := by
  unfold usizeOfInt
  rw [Int.emod_eq_of_lt h0 h]

/-- The usize-to-isize cast is the identity below the sign boundary. -/
theorem isizeOfNat_small (x : Nat) (h : x < 2 ^ 63) :
    isizeOfNat x = (x : Int) := by
  unfold isizeOfNat
  rw [Int.emod_eq_of_lt (by positivity) (by push_cast; omega)]
  ring

/-- takeWhile over an append whose first part satisfies the predicate. -/
theorem takeWhile_append_all (p : Char → Bool) (l r : List Char)
    (h : l.all p = true) : (l ++ r).takeWhile p = l ++ r.takeWhile p := by
  induction l with
  | nil => rfl
  | cons a t ih =>
    simp only [List.all_cons, Bool.and_eq_true] at h
    simp [List.takeWhile_cons, h.1, ih h.2]

/-- dropWhile over an append whose first part satisfies the predicate. -/
theorem dropWhile_append_all (p : Char → Bool) (l r : List Char)
    (h : l.all p = true) : (l ++ r).dropWhile p = r.dropWhile p := by
  induction l with
  | nil => rfl
  | cons a t ih =>
    simp only [List.all_cons, Bool.and_eq_true] at h
    simp [List.dropWhile_cons, h.1, ih h.2]

/-- takeWhile keeps a list all of whose members satisfy the predicate. -/
theorem takeWhile_all_self (p : Char → Bool) (l : List Char)
    (h : l.all p = true) : l.takeWhile p = l := by
  have := takeWhile_append_all p l [] h
  simpa using this

/-- A successful prefix test determines the leading take of the longer
list. -/
theorem isPrefixL_take (p : List Char) : ∀ (q : List Char),
    isPrefixL p q = true → q.take p.length = p := by
  induction p with
  | nil => intro q _; rfl
  | cons a t ih =>
    intro q hq
    cases q with
    | nil => simp [isPrefixL] at hq
    | cons b s =>
      simp only [isPrefixL, Bool.and_eq_true, decide_eq_true_eq] at hq
      simp [List.take_succ_cons, hq.1, ih s hq.2]

/-- Every occurrence reported by the literal search has the length of the
pattern, lies at or after the starting position, and reads back the
pattern at its position. -/
theorem locateIter_sound (pat : List Char) : ∀ (fuel : Nat) (tgt : List Char)
    (p0 pos len : Nat), (pos, len) ∈ locateIter pat fuel tgt p0 →
    len = pat.length ∧ p0 ≤ pos ∧ (tgt.drop (pos - p0)).take pat.length = pat := by
  intro fuel
  induction fuel with
  | zero => intro tgt p0 pos len h; simp [locateIter] at h
  | succ n ih =>
    intro tgt p0 pos len h
    simp only [locateIter] at h
    by_cases hcond : pat ≠ [] ∧ isPrefixL pat tgt = true
    · rw [if_pos hcond] at h
      rcases List.mem_cons.mp h with heq | htail
      · obtain ⟨h1, h2⟩ := Prod.mk.injEq .. ▸ heq
        refine ⟨h2, by omega, ?_⟩
        subst h1
        simpa using isPrefixL_take pat tgt hcond.2
      · obtain ⟨h1, h2, h3⟩ := ih (tgt.drop pat.length) (p0 + pat.length) pos len htail
        refine ⟨h1, by omega, ?_⟩
        rw [List.drop_drop] at h3
        have heq : pos - p0 = pat.length + (pos - (p0 + pat.length)) := by omega
        rw [heq]
        exact h3
    · rw [if_neg hcond] at h
      cases tgt with
      | nil => simp at h
      | cons a t =>
        obtain ⟨h1, h2, h3⟩ := ih t (p0 + 1) pos len h
        refine ⟨h1, by omega, ?_⟩
        have heq : pos - p0 = (pos - (p0 + 1)) + 1 := by omega
        rw [heq, List.drop_succ_cons]
        exact h3

/-- The line filter pattern matched against a feature built from a hash,
digits, a dot and digits captures the two digit runs as a range token. -/
theorem lineTokAt_range (dsa dsb : List Char) (ha1 : dsa ≠ [])
    (ha2 : dsa.all Char.isDigit = true) (hb1 : dsb ≠ [])
    (hb2 : dsb.all Char.isDigit = true) :
    lineTokAt ('#' :: (dsa ++ '.' :: dsb)) = some (LineTok.range dsa dsb) := by
  simp only [lineTokAt]
  rw [takeWhile_append_all Char.isDigit dsa ('.' :: dsb) ha2,
    dropWhile_append_all Char.isDigit dsa ('.' :: dsb) ha2]
  have hdot : Char.isDigit '.' = false := by decide
  simp [List.takeWhile_cons, List.dropWhile_cons, hdot, ha1, hb1,
    takeWhile_all_self Char.isDigit dsb hb2]

/-- parseUsize succeeds on a nonempty digit run below the usize bound. -/
theorem parseUsize_digits (ds : List Char) (h1 : ds ≠ [])
    (h2 : ds.all Char.isDigit = true) (h3 : digitsVal ds < 2 ^ 64) :
    parseUsize ds = some (digitsVal ds) := by
  unfold parseUsize
  rw [if_pos ⟨h1, h2, h3⟩]

/-- C2.  The claim states that Backspace at column 0 on line 2 of a
2-line document sets the mark column to the pre-edit length of line 1.
Evaluating update_view at the failing input (the document with first line
a and second line bc, one mark at line 2 column 0, offset 2): the merged
mark gets line 1 and column 2, which is the pre-edit length of line 2,
while the pre-edit length of line 1 is 1; the edit is classified Clear
(full redraw) as claimed.  The column part contradicts the stated merge
semantics and the offset invariant of the spec (section 8, property 1):
the adjusted mark has offset 1 but a column whose recomputed offset would
be 2. -/
theorem c2_backspace_merge_eval :
    ((Paper.update_view
        { view := viewC2,
          marks := [{ pointer := ⟨some 2⟩,
                      place := { line := lineNo 1, index := 0 } }] }
        BACKSPACE).map (fun r => (r.1.marks, r.2.change)) =
      some ([{ pointer := ⟨some 1⟩,
               place := { line := lineNo 0, index := 2 } }], Change.Clear)) ∧
    viewC2.line_length { line := lineNo 0, index := 0 } = some 1 ∧
    viewC2.line_length { line := lineNo 1, index := 0 } = some 2 :=
  ⟨by decide, by decide, by decide⟩

/-- C3 counterexample.  A Backspace adjustment (shift minus one) applied
to a mark with offset 1 would leave the offset at 0, which is
non-negative, so the claim says the mark is adjusted; the code skips it:
the guard requires the resulting offset to be strictly positive, so the
mark is returned unmodified. -/
theorem c3_counterexample :
    ((Adjustment.create BACKSPACE { line := lineNo 0, index := 5 } viewAB).map
      (fun a => a.shift)) = some (-1) ∧
    ((Adjustment.create BACKSPACE { line := lineNo 0, index := 5 } viewAB).bind
      (fun a => Mark.adjust
        { pointer := ⟨some 1⟩, place := { line := lineNo 0, index := 5 } } a)) =
      some { pointer := ⟨some 1⟩, place := { line := lineNo 0, index := 5 } } :=
  ⟨by decide, by decide⟩

/-- C3 (amended).  For every mark with a valid offset p (below the isize
wrap boundary) and every accumulated adjustment: the adjustment never
panics; a mark whose offset would become zero or negative is left
unmodified; and a mark whose offset would remain strictly positive is
adjusted, its offset becoming the shifted value and its line moving by
the line delta. -/
theorem c3_negative_offset_guard (m : Mark) (p : Nat) (a : Adjustment)
    (hm : m.pointer = ⟨some p⟩) (hp : p < 2 ^ 63) :
    (Mark.adjust m a).isSome = true ∧
    ((p : Int) + a.shift ≤ 0 → Mark.adjust m a = some m) ∧
    (0 < (p : Int) + a.shift →
      (Mark.adjust m a).map (fun m2 => (m2.pointer, m2.place.line)) =
        some (⟨some (usizeOfInt ((p : Int) + a.shift))⟩,
          m.place.line.addInt a.line_change)) := by
  have hts : m.pointer.to_isize = some ((p : Int)) := by
    rw [hm]
    simp [Pointer.to_isize, isizeOfNat_small p hp]
  have hadj : Mark.adjust m a =
      if -a.shift < (p : Int) then
        some { pointer := m.pointer.addIsize a.shift,
               place := { line := m.place.line.addInt a.line_change,
                          index :=
                            match a.indexes_changed
                                (m.place.line.addInt a.line_change) with
                            | some change =>
                              usizeOfInt ((m.place.index : Int) + change)
                            | none => m.place.index } }
      else some m := by
    unfold Mark.adjust
    rw [hts]
  refine ⟨?_, ?_, ?_⟩
  · rw [hadj]
    split <;> rfl
  · intro h
    rw [hadj, if_neg (by omega)]
  · intro h
    rw [hadj, if_pos (by omega)]
    rw [hm]
    simp [Pointer.addIsize, isizeOfNat_small p hp]

/-- Witness for C3 (amended): a mark at offset 1 receiving a Backspace
adjustment (shift minus one, resulting offset zero) is left unmodified. -/
theorem c3_negative_offset_guard_witness :
    Mark.adjust { pointer := ⟨some 1⟩, place := { line := lineNo 0, index := 5 } }
      (Adjustment.new (lineNo 0) (-1) (-1) Change.Backspace) =
      some { pointer := ⟨some 1⟩, place := { line := lineNo 0, index := 5 } } :=
  (c3_negative_offset_guard _ 1 _ rfl (by decide)).2.1 (by decide)

/-- C5.  Offset arithmetic on the Invalid pointer: adding a pointer to a
usize, adding a usize to a pointer, subtracting a usize and adding an
isize all map Invalid to Invalid; each operation is a total function
(never a panic), the mapping simply having nothing to act on. -/
theorem c5_invalid_absorbing (n : Nat) (i : Int) :
    usizeAddPointer n ⟨none⟩ = ⟨none⟩ ∧
    Pointer.addUsize ⟨none⟩ n = ⟨none⟩ ∧
    Pointer.subUsize ⟨none⟩ n = ⟨none⟩ ∧
    Pointer.addIsize ⟨none⟩ i = ⟨none⟩ :=
  ⟨rfl, rfl, rfl, rfl⟩

/-- C8 counterexample.  The claim states that a malformed or empty
pattern empties the working set; on the bare slash feature (an empty
pattern, from which the one-or-more capture extracts nothing) the pattern
filter leaves the nonempty working set unchanged instead. -/
theorem c8_counterexample :
    PatternFilter.extract ['/'] [Section.line (lineNo 0)] viewC7 =
      some [Section.line (lineNo 0)] ∧
    ([Section.line (lineNo 0)] : List Section) ≠ [] :=
  ⟨by decide, by decide⟩

/-- C8 (amended).  A feature with no line-filter match leaves the working
set unchanged; a feature from which no pattern text can be captured (a
malformed or empty pattern token) leaves the working set unchanged as
well, and neither raises an error; a well-formed pattern with no
occurrences empties the working set. -/
theorem c8_malformed_token_narrowing :
    (∀ (feature : List Char) (secs : List Section), findTok feature = none →
      LineFilter.extract feature secs = secs) ∧
    (∀ (feature : List Char) (secs : List Section) (v : View),
      findPat feature = none → PatternFilter.extract feature secs v = some secs) ∧
    (PatternFilter.extract ['/', 'z', 'z'] [Section.line (lineNo 0)] viewC7 =
      some []) := by
  refine ⟨?_, ?_, by decide⟩
  · intro f secs h
    unfold LineFilter.extract
    rw [h]
  · intro f secs v h
    unfold PatternFilter.extract
    rw [h]

/-- Witness for C8 (amended): a malformed line token leaves the working
set unchanged and a feature without a pattern capture leaves it unchanged
through the pattern filter. -/
theorem c8_malformed_token_narrowing_witness :
    LineFilter.extract ['#', 'x'] [Section.line (lineNo 0)] =
      [Section.line (lineNo 0)] ∧
    PatternFilter.extract ['a'] [Section.line (lineNo 0)] viewC7 =
      some [Section.line (lineNo 0)] :=
  ⟨c8_malformed_token_narrowing.1 ['#', 'x'] _ (by decide),
   c8_malformed_token_narrowing.2.1 ['a'] _ viewC7 (by decide)⟩

/-- C9.  In every mode, processing the Escape input yields operations
that leave the controller in Display mode (the only mode change emitted
is to Display, and a mode that emits nothing is Display itself), and none
of the emitted operations edits the buffer. -/
theorem c9_escape_cancellation (m : Mode) :
    applyOps m (Mode.process_input m ESC) = Mode.Display ∧
    (Mode.process_input m ESC).all (fun op => !op.editsBuffer) = true := by
  cases m <;> exact ⟨by decide, by decide⟩

/-- C10.  Every line number is at least 1 and the arithmetic preserves
this: add and sub of a usize and add of an isize stay positive, sub
saturates at line 1 when the subtrahend reaches the value, scrolling past
the top clamps the origin at line 1, and a line delta of minus one
applied to line 1 leaves it at line 1. -/
theorem c10_line_numbers_positive :
    (∀ l : LineNumber, 1 ≤ l.val) ∧
    (∀ (l : LineNumber) (k : Nat), 1 ≤ (l.add k).val ∧ 1 ≤ (l.sub k).val) ∧
    (∀ (l : LineNumber) (i : Int), 1 ≤ (l.addInt i).val) ∧
    (∀ (l : LineNumber) (k : Nat), l.val ≤ k → l.sub k = LineNumber.default) ∧
    (∀ (v : View) (mv : Int), (v.originLine.val : Int) + mv ≤ 1 →
      (v.scroll mv).originLine = LineNumber.default) ∧
    (∀ l : LineNumber, l.val = 1 → l.addInt (-1) = l) := by
  have hsub : ∀ (l : LineNumber) (k : Nat), l.val ≤ k → l.sub k = LineNumber.default := by
    intro l k h
    unfold LineNumber.sub
    rw [dif_neg (by omega)]
  refine ⟨fun l => l.2, fun l k => ⟨(l.add k).2, (l.sub k).2⟩,
    fun l i => (l.addInt i).2, hsub, ?_, ?_⟩
  · intro v mv h
    have hA : (v.originLine.addInt mv).val = 1 := by
      have hv := v.originLine.2
      unfold LineNumber.addInt
      by_cases hneg : mv < 0
      · rw [if_pos hneg]
        unfold LineNumber.sub
        by_cases hlt : (-mv).toNat < v.originLine.val
        · rw [dif_pos hlt]
          show v.originLine.val - (-mv).toNat = 1
          have hmt : ((-mv).toNat : Int) = -mv := Int.toNat_of_nonneg (by omega)
          omega
        · rw [dif_neg hlt]
          rfl
      · rw [if_neg hneg]
        unfold LineNumber.add
        show v.originLine.val + mv.toNat = 1
        have hmt : (mv.toNat : Int) = mv := Int.toNat_of_nonneg (by omega)
        omega
    unfold View.scroll
    simp only
    unfold LineNumber.min
    rw [if_pos (by
      rw [hA]
      exact ((LineNumber.new v.line_count).getD LineNumber.default).2)]
    exact Subtype.ext hA
  · intro l h
    apply Subtype.ext
    unfold LineNumber.addInt
    rw [if_pos (by omega)]
    unfold LineNumber.sub
    rw [dif_neg (by omega)]
    exact h.symm

/-- Witness for C10: subtracting past the value saturates at line 1,
scrolling a one-line view up by three clamps the origin at line 1, and a
line delta of minus one leaves line 1 at line 1. -/
theorem c10_line_numbers_positive_witness :
    LineNumber.sub (lineNo 1) 5 = LineNumber.default ∧
    (View.scroll viewAB (-3)).originLine = LineNumber.default ∧
    (lineNo 0).addInt (-1) = lineNo 0 :=
  ⟨c10_line_numbers_positive.2.2.2.1 (lineNo 1) 5 (by decide),
   c10_line_numbers_positive.2.2.2.2.1 viewAB (-3) (by decide),
   c10_line_numbers_positive.2.2.2.2.2 (lineNo 0) (by decide)⟩

@[simp]
theorem Adjustment.new_shift (line : LineNumber) (shift index_change : Int)
    (change : Change) :
    (Adjustment.new line shift index_change change).shift = shift := rfl

@[simp]
theorem Adjustment.new_line_change (line : LineNumber) (shift index_change : Int)
    (change : Change) :
    (Adjustment.new line shift index_change change).line_change =
      if change = Change.Clear then shift else 0 := rfl

@[simp]
theorem Adjustment.new_change (line : LineNumber) (shift index_change : Int)
    (change : Change) :
    (Adjustment.new line shift index_change change).change = change := rfl

@[simp]
theorem Adjustment.new_indexes (line : LineNumber) (shift index_change : Int)
    (change : Change) (l : LineNumber) :
    (Adjustment.new line shift index_change change).indexes_changed l =
      if l = line.addInt (if change = Change.Clear then shift else 0) then
        some index_change
      else none := rfl

@[simp]
theorem Adjustment.add_shift (s o : Adjustment) :
    (s.add o).shift = s.shift + o.shift := rfl

@[simp]
theorem Adjustment.add_line_change (s o : Adjustment) :
    (s.add o).line_change = s.line_change + o.line_change := rfl

@[simp]
theorem Adjustment.add_change (s o : Adjustment) :
    (s.add o).change = if s.change ≠ Change.Clear then o.change else s.change := rfl

@[simp]
theorem Adjustment.add_indexes (s o : Adjustment) (l : LineNumber) :
    (s.add o).indexes_changed l =
      match s.indexes_changed l, o.indexes_changed l with
      | none, none => none
      | some a, none => some a
      | none, some b => some b
      | some a, some b => some (a + b) := rfl

@[simp]
theorem Adjustment.default_shift : Adjustment.default.shift = 0 := rfl

@[simp]
theorem Adjustment.default_line_change : Adjustment.default.line_change = 0 := rfl

@[simp]
theorem Adjustment.default_change : Adjustment.default.change = Change.Row [] := rfl

@[simp]
theorem Adjustment.default_indexes (l : LineNumber) :
    Adjustment.default.indexes_changed l = none := rfl

@[simp]
theorem Pointer.addIsize_some (x : Nat) (i : Int) :
    Pointer.addIsize ⟨some x⟩ i = ⟨some (usizeOfInt (isizeOfNat x + i))⟩ := rfl

@[simp]
theorem LineNumber.addInt_zero (l : LineNumber) : l.addInt 0 = l := rfl

@[simp]
theorem LineNumber.addInt_one (l : LineNumber) : l.addInt 1 = l.add 1 := rfl

/-- Evaluation of Mark::adjust on a mark with a valid small offset: the
guard compares the negated accumulated shift against the offset, and a
passing guard shifts the pointer, moves the line by the line delta, and
applies the per-line entry registered for the resulting line. -/
theorem mark_adjust_cases (m : Mark) (p : Nat) (a : Adjustment)
    (hm : m.pointer = ⟨some p⟩) (hp : p < 2 ^ 63) :
    Mark.adjust m a =
      if -a.shift < (p : Int) then
        some { pointer := m.pointer.addIsize a.shift,
               place := { line := m.place.line.addInt a.line_change,
                          index :=
                            match a.indexes_changed
                                (m.place.line.addInt a.line_change) with
                            | some change =>
                              usizeOfInt ((m.place.index : Int) + change)
                            | none => m.place.index } }
      else some m := by
  have hts : m.pointer.to_isize = some ((p : Int)) := by
    rw [hm]
    simp [Pointer.to_isize, isizeOfNat_small p hp]
  unfold Mark.adjust
  rw [hts]

/-- Evaluation of Adjustment::create on an ordinary insert character. -/
theorem Adjustment.create_insert (c : Char) (pl : Place) (v : View)
    (hb : c ≠ BACKSPACE) (he : c ≠ ENTER) :
    Adjustment.create c pl v =
      some (Adjustment.new pl.line 1 1 (Change.Insert c)) := by
  unfold Adjustment.create
  rw [if_neg hb, if_neg he]

/-- Evaluation of View::add on an insert character at a valid pointer. -/
theorem View.add_insert (v : View) (m : Mark) (c : Char) (idx : Nat)
    (hb : c ≠ BACKSPACE) (hm : m.pointer.val = some idx)
    (h1 : 1 ≤ idx) (h2 : idx - 1 ≤ v.data.length) :
    v.add m c = some { v with data := insertAtL (idx - 1) c v.data } := by
  unfold View.add
  rw [hm]
  dsimp only
  rw [if_neg hb, if_pos ⟨h1, h2⟩]

/-- Inserting within bounds grows the character sequence by one. -/
theorem insertAtL_length (c : Char) : ∀ (n : Nat) (l : List Char),
    n ≤ l.length → (insertAtL n c l).length = l.length + 1 := by
  intro n
  induction n with
  | zero => intro l _; rfl
  | succ k ih =>
    intro l h
    cases l with
    | nil => simp at h
    | cons x t =>
      show (insertAtL k c t).length + 1 = t.length + 1 + 1
      rw [ih t (by simpa using h)]

/-- Evaluation of Mark::adjust against an accumulated pure-insert
adjustment: shift k, no line delta, a per-line entry of k on the line of
the mark.  The pointer and the column both advance by k and the line is
unchanged. -/
theorem mark_adjust_insert (L : LineNumber) (cI p k : Nat) (a : Adjustment)
    (haShift : a.shift = (k : Int)) (haLc : a.line_change = 0)
    (haIdx : a.indexes_changed L = some (k : Int))
    (hk0 : 0 < k) (hp : p < 2 ^ 63) (hc : cI < 2 ^ 63) (hk : k < 2 ^ 63) :
    Mark.adjust { pointer := ⟨some p⟩, place := { line := L, index := cI } } a =
      some { pointer := ⟨some (p + k)⟩,
             place := { line := L, index := cI + k } } := by
  rw [mark_adjust_cases _ p _ rfl hp]
  rw [if_pos (by rw [haShift]; omega)]
  simp only [Pointer.addIsize_some, isizeOfNat_small p hp, haShift, haLc,
    LineNumber.addInt_zero, haIdx]
  have e1 : (p : Int) + (k : Int) = ((p + k : Nat) : Int) := by push_cast; ring
  have e2 : (cI : Int) + (k : Int) = ((cI + k : Nat) : Int) := by push_cast; ring
  rw [e1, e2, usizeOfInt_natCast _ (by omega), usizeOfInt_natCast _ (by omega)]

/-- C6.  The line filter is symmetric in the endpoints of a range token:
for any two digit runs the features hash a dot b and hash b dot a narrow
any working set identically, both retaining exactly the sections whose
start line lies between the normalized endpoints; and a relative token
normalizes the same way, hash 5 plus 3 narrowing to lines 5 through 8 and
hash 5 minus 3 narrowing to lines 2 through 5. -/
theorem c6_line_filter_symmetry (secs : List Section) (dsa dsb : List Char)
    (ha1 : dsa ≠ []) (ha2 : dsa.all Char.isDigit = true)
    (hb1 : dsb ≠ []) (hb2 : dsb.all Char.isDigit = true) :
    (LineFilter.extract ('#' :: (dsa ++ '.' :: dsb)) secs =
      LineFilter.extract ('#' :: (dsb ++ '.' :: dsa)) secs) ∧
    (digitsVal dsa < 2 ^ 64 → digitsVal dsb < 2 ^ 64 →
      LineFilter.extract ('#' :: (dsa ++ '.' :: dsb)) secs =
        secs.filter (fun x =>
          decide (Nat.min (digitsVal dsa) (digitsVal dsb) ≤ x.start.line.val) &&
            decide (x.start.line.val ≤ Nat.max (digitsVal dsa) (digitsVal dsb)))) ∧
    (LineFilter.extract ('#' :: ['5', '+', '3']) secs =
      secs.filter (fun x =>
        decide (5 ≤ x.start.line.val) && decide (x.start.line.val ≤ 8))) ∧
    (LineFilter.extract ('#' :: ['5', '-', '3']) secs =
      secs.filter (fun x =>
        decide (2 ≤ x.start.line.val) && decide (x.start.line.val ≤ 5))) := by
  have hfa : findTok ('#' :: (dsa ++ '.' :: dsb)) = some (LineTok.range dsa dsb) := by
    simp only [findTok, lineTokAt_range dsa dsb ha1 ha2 hb1 hb2]
  have hfb : findTok ('#' :: (dsb ++ '.' :: dsa)) = some (LineTok.range dsb dsa) := by
    simp only [findTok, lineTokAt_range dsb dsa hb1 hb2 ha1 ha2]
  refine ⟨?_, ?_, by rfl, by rfl⟩
  · simp only [LineFilter.extract, hfa, hfb]
    rcases hpa : parseUsize dsa with _ | a <;>
      rcases hpb : parseUsize dsb with _ | b
    · rfl
    · rfl
    · rfl
    · simp [Nat.min_comm, Nat.max_comm]
  · intro hA hB
    simp only [LineFilter.extract, hfa, parseUsize_digits dsa ha1 ha2 hA,
      parseUsize_digits dsb hb1 hb2 hB]

/-- Witness for C6: the tokens hash 2 dot 4 and hash 4 dot 2 narrow a
sample working set identically. -/
theorem c6_line_filter_symmetry_witness :
    LineFilter.extract ('#' :: (['2'] ++ '.' :: ['4']))
        [Section.line (lineNo 0), Section.line (lineNo 2)] =
      LineFilter.extract ('#' :: (['4'] ++ '.' :: ['2']))
        [Section.line (lineNo 0), Section.line (lineNo 2)] :=
  (c6_line_filter_symmetry [Section.line (lineNo 0), Section.line (lineNo 2)]
    ['2'] ['4'] (by decide) (by decide) (by decide) (by decide)).1

/-- C7.  The pattern filter on the working set holding the whole line
xxfooyy with the pattern foo yields exactly one section with start column
2 and length 3; and in general every occurrence reported by the search
underlying the filter has the length of the pattern and reads back the
pattern at the reported position of the target. -/
theorem c7_pattern_filter_exactness :
    (PatternFilter.extract ['/', 'f', 'o', 'o'] [Section.line (lineNo 0)] viewC7 =
      some [{ start := { line := lineNo 0, index := 2 },
              length := Length.finite 3 }]) ∧
    (∀ (pat tgt : List Char) (pos len : Nat), (pos, len) ∈ locateAux pat tgt 0 →
      len = pat.length ∧ (tgt.drop pos).take pat.length = pat) := by
  refine ⟨by decide, ?_⟩
  intro pat tgt pos len h
  unfold locateAux at h
  obtain ⟨h1, _, h3⟩ := locateIter_sound pat tgt.length tgt 0 pos len h
  exact ⟨h1, by simpa using h3⟩

/-- Witness for C7: the occurrence of foo reported at position 2 of
xxfooyy has length 3 and reads back foo. -/
theorem c7_pattern_filter_exactness_witness :
    3 = (['f', 'o', 'o'] : List Char).length ∧
    ((['x', 'x', 'f', 'o', 'o', 'y', 'y'] : List Char).drop 2).take
        (['f', 'o', 'o'] : List Char).length = ['f', 'o', 'o'] :=
  c7_pattern_filter_exactness.2 ['f', 'o', 'o']
    ['x', 'x', 'f', 'o', 'o', 'y', 'y'] 2 3 (by decide)

/-- C4.  For every mark at line L and column c with a valid small offset,
the Enter keystroke produces an adjustment classified Clear (full redraw)
whose per-line entry records the deleted column count as the negative
delta for line L plus 1, and adjusting the mark by it moves the mark to
line L plus 1, column 0, with the offset advanced past the inserted
break. -/
theorem c4_line_break_reclassification (v : View) (L : LineNumber) (c p : Nat)
    (hp : p < 2 ^ 63) :
    ∃ a, Adjustment.create ENTER ({ line := L, index := c } : Place) v = some a ∧
      a.change = Change.Clear ∧
      a.indexes_changed (L.add 1) = some (-(c : Int)) ∧
      Mark.adjust { pointer := ⟨some p⟩, place := { line := L, index := c } } a =
        some { pointer := ⟨some (p + 1)⟩,
               place := { line := L.add 1, index := 0 } } := by
  have hidx : (Adjustment.new L 1 (-(c : Int)) Change.Clear).indexes_changed
      (L.add 1) = some (-(c : Int)) := by simp
  have hlc : (Adjustment.new L 1 (-(c : Int)) Change.Clear).line_change = 1 := by
    simp
  refine ⟨Adjustment.new L 1 (-(c : Int)) Change.Clear, ?_, rfl, hidx, ?_⟩
  · unfold Adjustment.create
    rw [if_neg (by decide), if_pos rfl]
  · rw [mark_adjust_cases _ p _ rfl hp]
    rw [if_pos (by simp only [Adjustment.new_shift]; omega)]
    rw [hlc, LineNumber.addInt_one, hidx, Adjustment.new_shift]
    simp only [Pointer.addIsize_some, isizeOfNat_small p hp]
    have e1 : (p : Int) + 1 = ((p + 1 : Nat) : Int) := by push_cast; ring
    have e2 : (c : Int) + -(c : Int) = ((0 : Nat) : Int) := by push_cast; ring
    rw [e1, e2, usizeOfInt_natCast (p + 1) (by omega),
      usizeOfInt_natCast 0 (by norm_num)]

/-- Witness for C4: Enter at line 1, column 1, offset 1 of the sample
view moves the mark to line 2, column 0, offset 2, with a Clear class. -/
theorem c4_line_break_reclassification_witness :
    ∃ a, Adjustment.create ENTER ({ line := lineNo 0, index := 1 } : Place)
        viewAB = some a ∧
      a.change = Change.Clear ∧
      a.indexes_changed ((lineNo 0).add 1) = some (-(1 : Int)) ∧
      Mark.adjust { pointer := ⟨some 1⟩,
                    place := { line := lineNo 0, index := 1 } } a =
        some { pointer := ⟨some 2⟩,
               place := { line := (lineNo 0).add 1, index := 0 } } :=
  c4_line_break_reclassification viewAB (lineNo 0) 1 1 (by norm_num)

/-- The nil equation of the per-mark loop. -/
theorem updateViewGo_nil (c : Char) (adj : Adjustment) (v : View) :
    updateViewGo c [] adj v = some ([], v, adj) := rfl

/-- One successful step of the per-mark loop: the own adjustment of the
head mark is created, accumulated, applied to the mark, the edit applied
to the view, and the loop continues on the tail with the accumulated
adjustment and the mutated view. -/
theorem updateViewGo_cons (c : Char) (m : Mark) (rest : List Mark)
    (adj : Adjustment) (v : View) (own : Adjustment) (m2 : Mark) (v2 : View)
    (res : List Mark × View × Adjustment)
    (h1 : Adjustment.create c m.place v = some own)
    (h2 : m.adjust (adj.add own) = some m2)
    (h3 : v.add m2 c = some v2)
    (h4 : updateViewGo c rest (adj.add own) v2 = some res) :
    updateViewGo c (m :: rest) adj v = some (m2 :: res.1, res.2.1, res.2.2) := by
  simp only [updateViewGo]
  rw [h1]
  dsimp only
  rw [h2]
  dsimp only
  rw [h3]
  dsimp only
  rw [h4]

/-- C1.  A document with two marks on the same line, the first column
before the second: one ordinary insert keystroke through update_view
advances the second mark by exactly one more than the effect of its own
edit (its offset and column both grow by two, one for the first mark and
one for its own insert) and leaves its line unchanged, the edit being
classified as the incremental Insert of the typed character. -/
theorem c1_multi_cursor_shift (v : View) (L : LineNumber) (c1 c2 p1 p2 : Nat)
    (ch : Char) (hb : ch ≠ BACKSPACE) (he : ch ≠ ENTER) (hcol : c1 < c2)
    (hp1 : p1 < 2 ^ 63) (hp2 : p2 < 2 ^ 63) (hc2 : c2 < 2 ^ 63)
    (hl1 : p1 ≤ v.data.length) (hl2 : p2 ≤ v.data.length) :
    ∃ (q : Paper) (a : Adjustment),
      Paper.update_view
        { view := v,
          marks := [{ pointer := ⟨some p1⟩, place := { line := L, index := c1 } },
                    { pointer := ⟨some p2⟩, place := { line := L, index := c2 } }] }
        ch = some (q, a) ∧
      q.marks.get? 1 = some { pointer := ⟨some (p2 + 2)⟩,
                              place := { line := L, index := c2 + 2 } } ∧
      a.change = Change.Insert ch := by
  have hc1 : c1 < 2 ^ 63 := by omega
  have hs1 : (Adjustment.default.add (Adjustment.new L 1 1 (Change.Insert ch))).shift =
      ((1 : Nat) : Int) := by simp
  have hlc1 : (Adjustment.default.add
      (Adjustment.new L 1 1 (Change.Insert ch))).line_change = 0 := by simp
  have hidx1 : (Adjustment.default.add
      (Adjustment.new L 1 1 (Change.Insert ch))).indexes_changed L =
      some ((1 : Nat) : Int) := by simp
  have hs2 : ((Adjustment.default.add (Adjustment.new L 1 1 (Change.Insert ch))).add
      (Adjustment.new L 1 1 (Change.Insert ch))).shift = ((2 : Nat) : Int) := by
    norm_num
  have hlc2 : ((Adjustment.default.add (Adjustment.new L 1 1 (Change.Insert ch))).add
      (Adjustment.new L 1 1 (Change.Insert ch))).line_change = 0 := by simp
  have hidx2 : ((Adjustment.default.add (Adjustment.new L 1 1 (Change.Insert ch))).add
      (Adjustment.new L 1 1 (Change.Insert ch))).indexes_changed L =
      some ((2 : Nat) : Int) := by
    simp
  have hch2 : ((Adjustment.default.add (Adjustment.new L 1 1 (Change.Insert ch))).add
      (Adjustment.new L 1 1 (Change.Insert ch))).change = Change.Insert ch := by
    simp
  have hcr1 : Adjustment.create ch ({ line := L, index := c1 } : Place) v =
      some (Adjustment.new L 1 1 (Change.Insert ch)) :=
    Adjustment.create_insert ch _ v hb he
  have hcr2 : Adjustment.create ch ({ line := L, index := c2 } : Place)
      ({ v with data := insertAtL p1 ch v.data }) =
      some (Adjustment.new L 1 1 (Change.Insert ch)) :=
    Adjustment.create_insert ch _ _ hb he
  have hm1 : Mark.adjust
      { pointer := ⟨some p1⟩, place := { line := L, index := c1 } }
      (Adjustment.default.add (Adjustment.new L 1 1 (Change.Insert ch))) =
      some { pointer := ⟨some (p1 + 1)⟩,
             place := { line := L, index := c1 + 1 } } :=
    mark_adjust_insert L c1 p1 1 _ hs1 hlc1 hidx1 (by norm_num) hp1 hc1
      (by norm_num)
  have hm2 : Mark.adjust
      { pointer := ⟨some p2⟩, place := { line := L, index := c2 } }
      ((Adjustment.default.add (Adjustment.new L 1 1 (Change.Insert ch))).add
        (Adjustment.new L 1 1 (Change.Insert ch))) =
      some { pointer := ⟨some (p2 + 2)⟩,
             place := { line := L, index := c2 + 2 } } :=
    mark_adjust_insert L c2 p2 2 _ hs2 hlc2 hidx2 (by norm_num) hp2 hc2
      (by norm_num)
  have hv1 : v.add
      { pointer := ⟨some (p1 + 1)⟩, place := { line := L, index := c1 + 1 } } ch =
      some { v with data := insertAtL p1 ch v.data } := by
    have h := View.add_insert v
      { pointer := ⟨some (p1 + 1)⟩, place := { line := L, index := c1 + 1 } }
      ch (p1 + 1) hb rfl (by omega) (by simpa using hl1)
    simpa using h
  have hlen1 : (insertAtL p1 ch v.data).length = v.data.length + 1 :=
    insertAtL_length ch p1 v.data hl1
  have hv2 : ({ v with data := insertAtL p1 ch v.data } : View).add
      { pointer := ⟨some (p2 + 2)⟩, place := { line := L, index := c2 + 2 } } ch =
      some { v with data := insertAtL (p2 + 1) ch (insertAtL p1 ch v.data) } := by
    have h := View.add_insert { v with data := insertAtL p1 ch v.data }
      { pointer := ⟨some (p2 + 2)⟩, place := { line := L, index := c2 + 2 } }
      ch (p2 + 2) hb rfl (by omega)
      (by show p2 + 2 - 1 ≤ (insertAtL p1 ch v.data).length
          rw [hlen1]
          omega)
    simpa using h
  refine ⟨{ view := { v with data := insertAtL (p2 + 1) ch (insertAtL p1 ch v.data) },
            marks := [{ pointer := ⟨some (p1 + 1)⟩,
                        place := { line := L, index := c1 + 1 } },
                      { pointer := ⟨some (p2 + 2)⟩,
                        place := { line := L, index := c2 + 2 } }] },
          (Adjustment.default.add (Adjustment.new L 1 1 (Change.Insert ch))).add
            (Adjustment.new L 1 1 (Change.Insert ch)), ?_, by simp, hch2⟩
  have hrun2 : updateViewGo ch
      [{ pointer := ⟨some p2⟩, place := { line := L, index := c2 } }]
      (Adjustment.default.add (Adjustment.new L 1 1 (Change.Insert ch)))
      ({ v with data := insertAtL p1 ch v.data }) =
      some ([{ pointer := ⟨some (p2 + 2)⟩,
               place := { line := L, index := c2 + 2 } }],
        { v with data := insertAtL (p2 + 1) ch (insertAtL p1 ch v.data) },
        (Adjustment.default.add (Adjustment.new L 1 1 (Change.Insert ch))).add
          (Adjustment.new L 1 1 (Change.Insert ch))) :=
    updateViewGo_cons ch _ [] _ _ _ _ _ _ hcr2 hm2 hv2 (updateViewGo_nil ch _ _)
  have hrun1 : updateViewGo ch
      [{ pointer := ⟨some p1⟩, place := { line := L, index := c1 } },
       { pointer := ⟨some p2⟩, place := { line := L, index := c2 } }]
      Adjustment.default v =
      some ([{ pointer := ⟨some (p1 + 1)⟩,
               place := { line := L, index := c1 + 1 } },
             { pointer := ⟨some (p2 + 2)⟩,
               place := { line := L, index := c2 + 2 } }],
        { v with data := insertAtL (p2 + 1) ch (insertAtL p1 ch v.data) },
        (Adjustment.default.add (Adjustment.new L 1 1 (Change.Insert ch))).add
          (Adjustment.new L 1 1 (Change.Insert ch))) :=
    updateViewGo_cons ch _ _ _ _ _ _ _ _ hcr1 hm1 hv1 hrun2
  unfold Paper.update_view
  dsimp only
  rw [hrun1]
  dsimp only
  rw [hch2, if_neg (by simp)]

/-- Witness for C1: inserting z into the sample two-character view with
marks at columns 0 and 1 advances the second mark to offset 3, column 3,
same line. -/
theorem c1_multi_cursor_shift_witness :
    ∃ (q : Paper) (a : Adjustment),
      Paper.update_view
        { view := viewAB,
          marks := [{ pointer := ⟨some 0⟩,
                      place := { line := lineNo 0, index := 0 } },
                    { pointer := ⟨some 1⟩,
                      place := { line := lineNo 0, index := 1 } }] }
        'z' = some (q, a) ∧
      q.marks.get? 1 = some { pointer := ⟨some (1 + 2)⟩,
                              place := { line := lineNo 0, index := 1 + 2 } } ∧
      a.change = Change.Insert 'z' :=
  c1_multi_cursor_shift viewAB (lineNo 0) 0 1 0 1 'z' (by decide) (by decide)
    (by decide) (by norm_num) (by norm_num) (by norm_num) (by decide) (by decide)
